import Mathlib

/-!
Verification of the oracle core of `dydxprotocol/connect` (slinky):
the median reducer `ComputeMedian` (`oracle/utils/math.go`), and the
oracle loop (`oracle/oracle.go`): `Start`, `Stop`, `tick`,
`fetchPricesFn`, `SetPrices`, `SetLastSyncTime`, `GetPrices`.

Shallow embedding conventions:
* `sdk.Dec` prices are modelled as `Int` (arbitrary-precision values with
  a total order and value equality, which is all the median code uses).
* A Go map is modelled either as a function to `Option` (keyed storage,
  no observable order) or, where the code iterates over it, as a list of
  key/value entries whose list order stands for one possible iteration
  order of the map.
* Concurrency is modelled by explicit schedules: lists of atomic events,
  one event per critical section of the corresponding lock.
-/

namespace Connect

/-- `types.TickerPrice`: a price together with its observation timestamp.
The timestamp is opaque to the median code (only `Price` is compared). -/
structure TickerPrice where
  price : Int
  timestamp : Int
deriving DecidableEq

/-- One provider's quote map `map[string]types.TickerPrice`, as a list of
entries in one possible iteration order. -/
abbrev ProviderPrices := List (String × TickerPrice)

/-- `types.AggregatedProviderPrices`: the per-tick snapshot, provider by
provider, in one possible iteration order. Only each provider's quote
map matters to `ComputeMedian`; the provider keys are dropped. -/
abbrev Snapshot := List ProviderPrices

/-- The per-asset price list `pricesByAsset[asset]` that the first loop of
`ComputeMedian` builds: traversing providers and their entries in order,
every price filed under `asset` is appended. -/
def gather (snap : Snapshot) (asset : String) : List TickerPrice :=
  snap.flatten.filterMap (fun e => if e.1 = asset then some e.2 else none)

/-- The comparator of `sort.SliceStable` in `ComputeMedian`, as a
non-strict `le`: the stable sort with `less = LT` on `Price` equals the
stable merge sort with `le` on `Price`. -/
def tpLE (a b : TickerPrice) : Bool := a.price ≤ b.price

/-- The in-place `sort.SliceStable(prices, ...)` of `ComputeMedian`:
stable sort of the ticker prices by their `Price` field. -/
def sortTP (l : List TickerPrice) : List TickerPrice :=
  l.mergeSort tpLE

/-- `ComputeMedian` (`oracle/utils/math.go`): for each asset present in
some provider's map, sort its gathered prices stably by value and take
`prices[len(prices)/2].Price`. Assets no provider reported are absent
from the Go result map; here they are sent to `none`. -/
def ComputeMedian (snap : Snapshot) (asset : String) : Option Int :=
  let prices := gather snap asset
  if prices.isEmpty then none
  else ((sortTP prices)[prices.length / 2]?).map TickerPrice.price

/-- Spec-level view of step 2/3 of the reducer: the sorted list of price
*values* reported for an asset. -/
def sortedPrices (l : List TickerPrice) : List Int :=
  (l.map TickerPrice.price).mergeSort (fun a b => a ≤ b)

theorem tpLE_trans : ∀ a b c, tpLE a b = true → tpLE b c = true → tpLE a c = true := by
  intro a b c hab hbc
  simp only [tpLE, decide_eq_true_eq] at *
  omega

theorem tpLE_total : ∀ a b, (tpLE a b || tpLE b a) = true := by
  intro a b
  simp only [tpLE, Bool.or_eq_true, decide_eq_true_eq]
  omega

theorem intLE_trans : ∀ a b c : Int, (decide (a ≤ b)) = true → (decide (b ≤ c)) = true →
    (decide (a ≤ c)) = true := by
  intro a b c hab hbc
  simp only [decide_eq_true_eq] at *
  omega

theorem intLE_total : ∀ a b : Int, (decide (a ≤ b) || decide (b ≤ a)) = true := by
  intro a b
  simp only [Bool.or_eq_true, decide_eq_true_eq]
  omega

/-- The price projection of the stably sorted ticker list is the sorted
list of price values: sorting by a field then projecting equals
projecting then sorting. -/
theorem map_price_sortTP (l : List TickerPrice) :
    (sortTP l).map TickerPrice.price = sortedPrices l := by
  have hperm : ((sortTP l).map TickerPrice.price).Perm (sortedPrices l) := by
    have h1 : ((sortTP l).map TickerPrice.price).Perm (l.map TickerPrice.price) :=
      (List.mergeSort_perm l tpLE).map TickerPrice.price
    have h2 : (sortedPrices l).Perm (l.map TickerPrice.price) :=
      List.mergeSort_perm (l.map TickerPrice.price) (fun a b => a ≤ b)
    exact h1.trans h2.symm
  have hs1 : List.Sorted (· ≤ ·) ((sortTP l).map TickerPrice.price) := by
    have hp : List.Pairwise (fun a b => tpLE a b = true) (sortTP l) :=
      List.sorted_mergeSort tpLE_trans tpLE_total l
    refine List.Pairwise.map TickerPrice.price ?_ hp
    intro a b hab
    simpa [tpLE] using hab
  have hs2 : List.Sorted (· ≤ ·) (sortedPrices l) := by
    have hp : List.Pairwise (fun a b : Int => (decide (a ≤ b)) = true)
        ((l.map TickerPrice.price).mergeSort (fun a b => a ≤ b)) :=
      List.sorted_mergeSort intLE_trans intLE_total (l.map TickerPrice.price)
    refine List.Pairwise.imp ?_ hp
    intro a b hab
    simpa using hab
  exact List.eq_of_perm_of_sorted hperm hs1 hs2

/-- `ComputeMedian` on a reported asset returns the element at index
`⌊|L|/2⌋` of the sorted price-value list of that asset. -/
theorem computeMedian_eq_sorted_index (snap : Snapshot) (asset : String)
    (h : gather snap asset ≠ []) :
    ComputeMedian snap asset =
      (sortedPrices (gather snap asset))[(gather snap asset).length / 2]? := by
  unfold ComputeMedian
  simp only [List.isEmpty_eq_true, h, if_false]
  rw [← map_price_sortTP, List.getElem?_map]

theorem sortedPrices_perm (l : List TickerPrice) :
    (sortedPrices l).Perm (l.map TickerPrice.price) :=
  List.mergeSort_perm _ _

theorem sortedPrices_sorted (l : List TickerPrice) :
    List.Sorted (· ≤ ·) (sortedPrices l) := by
  have hp := List.sorted_mergeSort intLE_trans intLE_total (l.map TickerPrice.price)
  refine List.Pairwise.imp ?_ hp
  intro a b hab
  simpa using hab

/-- Sorting the gathered price values only depends on the multiset of
values: permuted inputs sort to the same list. -/
theorem sortedPrices_congr {l₁ l₂ : List TickerPrice}
    (h : (l₁.map TickerPrice.price).Perm (l₂.map TickerPrice.price)) :
    sortedPrices l₁ = sortedPrices l₂ :=
  List.eq_of_perm_of_sorted
    ((sortedPrices_perm l₁).trans (h.trans (sortedPrices_perm l₂).symm))
    (sortedPrices_sorted l₁) (sortedPrices_sorted l₂)

/-- Concrete evaluation principle for `ComputeMedian`: exhibit the sorted
value list and read off the selected index. -/
theorem computeMedian_eval (snap : Snapshot) (asset : String) (out : List Int) (p : Int)
    (h : gather snap asset ≠ [])
    (hperm : ((gather snap asset).map TickerPrice.price).Perm out)
    (hsort : List.Sorted (· ≤ ·) out)
    (hidx : out[(gather snap asset).length / 2]? = some p) :
    ComputeMedian snap asset = some p := by
  rw [computeMedian_eq_sorted_index snap asset h]
  have hout : sortedPrices (gather snap asset) = out :=
    List.eq_of_perm_of_sorted ((sortedPrices_perm _).trans hperm) (sortedPrices_sorted _) hsort
  rw [hout, hidx]

theorem gather_eq_nil_iff (snap : Snapshot) (asset : String) :
    gather snap asset = [] ↔ ∀ e ∈ snap.flatten, e.1 ≠ asset := by
  unfold gather
  rw [List.filterMap_eq_nil_iff]
  constructor
  · intro h e he hne
    have hsome := h e he
    rw [if_pos hne] at hsome
    exact Option.noConfusion hsome
  · intro h e he
    rw [if_neg (h e he)]

theorem sortTP_length (l : List TickerPrice) : (sortTP l).length = l.length :=
  (List.mergeSort_perm l tpLE).length_eq

theorem median_index_lt (l : List TickerPrice) (h : l ≠ []) :
    l.length / 2 < (sortTP l).length := by
  rw [sortTP_length]
  have hpos : 0 < l.length := List.length_pos.mpr h
  omega

theorem computeMedian_isSome_of_ne (snap : Snapshot) (asset : String)
    (h : gather snap asset ≠ []) : (ComputeMedian snap asset).isSome = true := by
  unfold ComputeMedian
  simp only [List.isEmpty_eq_true, h, if_false]
  rw [List.getElem?_eq_getElem (median_index_lt _ h)]
  rfl

/-- **C1.** For every currency pair reported by at least one provider in
the snapshot, `ComputeMedian` gathers the list `L` of all prices reported
for it, stable-sorts by price, and emits the element at zero-based index
`⌊|L|/2⌋` of the sorted value list: the true (middle) median when `|L|` is
odd, the upper-middle element — never an arithmetic average — when `|L|`
is even. The witness checks the four-price scenario
`[1800, 1900, 2000, 2100] ↦ index 2 ↦ 2000`. -/
theorem median_selects_sorted_middle (snap : Snapshot) (asset : String)
    (h : gather snap asset ≠ []) :
    ComputeMedian snap asset =
      (sortedPrices (gather snap asset))[(gather snap asset).length / 2]? :=
  computeMedian_eq_sorted_index snap asset h

/-- Scenario C of the spec: four providers quoting (ETH,USD), given in a
deliberately unsorted provider order. -/
def snapScenC : Snapshot :=
  [[("ETH/USD", ⟨1900, 0⟩)], [("ETH/USD", ⟨2100, 1⟩)],
   [("ETH/USD", ⟨1800, 2⟩)], [("ETH/USD", ⟨2000, 3⟩)]]

theorem median_selects_sorted_middle_witness :
    gather snapScenC "ETH/USD" ≠ []
    ∧ ComputeMedian snapScenC "ETH/USD" = some 2000 := by
  refine ⟨by decide, ?_⟩
  rw [median_selects_sorted_middle snapScenC "ETH/USD" (by decide)]
  have hout : sortedPrices (gather snapScenC "ETH/USD") = [1800, 1900, 2000, 2100] :=
    List.eq_of_perm_of_sorted ((sortedPrices_perm _).trans (by decide))
      (sortedPrices_sorted _) (by decide)
  rw [hout]
  decide

/-- **C6.** `ComputeMedian` is deterministic: any two snapshots whose
entry traversals are permutations of each other — which covers any
reordering of the provider iteration and of each provider's asset
iteration — produce the same pair-to-price result. The stable sort plus
integer indexing makes the selected value independent of input order. -/
theorem median_deterministic (snap₁ snap₂ : Snapshot)
    (hperm : snap₁.flatten.Perm snap₂.flatten) (asset : String) :
    ComputeMedian snap₁ asset = ComputeMedian snap₂ asset := by
  have hg : (gather snap₁ asset).Perm (gather snap₂ asset) :=
    hperm.filterMap _
  by_cases h1 : gather snap₁ asset = []
  · have h2 : gather snap₂ asset = [] := by
      rw [h1] at hg
      exact hg.symm.eq_nil
    unfold ComputeMedian
    simp [h1, h2]
  · have h2 : gather snap₂ asset ≠ [] := by
      intro hc
      rw [hc] at hg
      exact h1 hg.eq_nil
    rw [computeMedian_eq_sorted_index _ _ h1, computeMedian_eq_sorted_index _ _ h2,
        sortedPrices_congr (hg.map TickerPrice.price), hg.length_eq]

/-- Two iteration orders of the same two-provider snapshot. -/
def snapOrdA : Snapshot :=
  [[("BTC/USD", ⟨30000, 0⟩)], [("BTC/USD", ⟨31000, 1⟩), ("ETH/USD", ⟨2000, 1⟩)]]

def snapOrdB : Snapshot :=
  [[("ETH/USD", ⟨2000, 1⟩), ("BTC/USD", ⟨31000, 1⟩)], [("BTC/USD", ⟨30000, 0⟩)]]

theorem median_deterministic_witness :
    snapOrdA.flatten.Perm snapOrdB.flatten
    ∧ ComputeMedian snapOrdA "BTC/USD" = ComputeMedian snapOrdB "BTC/USD" :=
  ⟨by decide, median_deterministic snapOrdA snapOrdB (by decide) "BTC/USD"⟩

/-- **C7.** The output domain of `ComputeMedian` is exactly the reported
pairs: the result is present for an asset iff some provider entry reports
that asset; an emitted price is one of the prices reported for the asset;
and the empty snapshot yields the empty result (no error). -/
theorem median_domain_exact (snap : Snapshot) (asset : String) :
    ((ComputeMedian snap asset).isSome = true ↔ ∃ e ∈ snap.flatten, e.1 = asset)
    ∧ (∀ p : Int, ComputeMedian snap asset = some p →
        p ∈ (gather snap asset).map TickerPrice.price)
    ∧ ComputeMedian ([] : Snapshot) asset = none := by
  refine ⟨⟨?_, ?_⟩, ?_, rfl⟩
  · intro hs
    by_contra hne
    push_neg at hne
    have hnil : gather snap asset = [] := by
      rw [gather_eq_nil_iff]
      intro e he heq
      exact hne e he heq
    unfold ComputeMedian at hs
    simp [hnil] at hs
  · rintro ⟨e, he, heq⟩
    refine computeMedian_isSome_of_ne snap asset ?_
    intro hnil
    exact (gather_eq_nil_iff snap asset).mp hnil e he heq
  · intro p hp
    have hne : gather snap asset ≠ [] := by
      intro hnil
      unfold ComputeMedian at hp
      simp [hnil] at hp
    rw [computeMedian_eq_sorted_index _ _ hne] at hp
    exact (sortedPrices_perm _).mem_iff.mp (List.getElem?_mem hp)

/-- A one-provider, one-pair snapshot. -/
def snapSingle : Snapshot := [[("BTC/USD", ⟨30000, 7⟩)]]

theorem median_domain_exact_witness :
    ((ComputeMedian snapSingle "BTC/USD").isSome = true
      ↔ ∃ e ∈ snapSingle.flatten, e.1 = "BTC/USD")
    ∧ (30000 : Int) ∈ (gather snapSingle "BTC/USD").map TickerPrice.price :=
  ⟨(median_domain_exact snapSingle "BTC/USD").1,
   (median_domain_exact snapSingle "BTC/USD").2.1 30000
     (computeMedian_eval snapSingle "BTC/USD" [30000] 30000
       (by decide) (by decide) (by decide) (by decide))⟩

/-- **C10.** `ComputeMedian` is total and in bounds: for any snapshot
(empty per-provider maps included), a per-asset list is built only when at
least one price was appended, so whenever the asset is reported the index
`len(prices)/2` is strictly within the sorted list's bounds and a price is
returned — no out-of-bounds access is possible. -/
theorem median_total_in_bounds (snap : Snapshot) (asset : String)
    (h : gather snap asset ≠ []) :
    (gather snap asset).length / 2 < (sortTP (gather snap asset)).length
    ∧ (ComputeMedian snap asset).isSome = true :=
  ⟨median_index_lt _ h, computeMedian_isSome_of_ne snap asset h⟩

/-- A snapshot with empty provider maps around a reporting one. -/
def snapNilMix : Snapshot := [[], [("X", ⟨5, 0⟩)], []]

theorem median_total_in_bounds_witness :
    gather snapNilMix "X" ≠ []
    ∧ ((gather snapNilMix "X").length / 2 < (sortTP (gather snapNilMix "X")).length
       ∧ (ComputeMedian snapNilMix "X").isSome = true) :=
  ⟨by decide, median_total_in_bounds snapNilMix "X" (by decide)⟩

/-! ## The provider runner (`fetchPricesFn`, `oracle/oracle.go`)

`fetchPricesFn` returns a closure that spawns an inner fetch goroutine
and then selects over `doneCh`, `errCh` and `time.After(providerTimeout)`.
The inner goroutine recovers its own panics into `errCh`; the closure's
outer `defer` recovers a panic of the runner body itself into the
closure's named return value `err`. -/

/-- Outcome of the inner fetch goroutine: `provider.GetPrices()` returns
prices, returns an error, or panics (recovered into `errCh` with the
`"panic when fetching prices"` marker). -/
inductive FetchResult
  | ok (prices : ProviderPrices)
  | err (e : String)
  | panicked (m : String)
deriving DecidableEq

/-- Which branch of the runner's `select` fires: `doneCh`, `errCh`, or
`time.After(providerTimeout)`. The fetch message wins only if it arrives
before the timeout; the inner goroutine writes the aggregator (on
success) before sending on `doneCh`. -/
inductive SelectBranch
  | done
  | gotErr (e : String)
  | timedOut
deriving DecidableEq

/-- The `select` of `fetchPricesFn`, given the fetch outcome and whether
its channel message arrives before the `providerTimeout` timer. -/
def runSelect (r : FetchResult) (beforeTimeout : Bool) : SelectBranch :=
  if beforeTimeout then
    match r with
    | .ok _ => .done
    | .err e => .gotErr e
    | .panicked m => .gotErr ("panic when fetching prices " ++ m)
  else .timedOut

/-- One execution of the runner closure: either its body runs to the end
of the `select` (with some branch), or the body itself panics and the
outer `defer`'s `recover` fires. -/
inductive RunnerRun
  | completes (r : FetchResult) (beforeTimeout : Bool)
  | bodyPanics (m : String)
deriving DecidableEq

/-- The error value the runner closure returns to `errgroup.Wait`: `nil`
(`none`) on every path that reaches `return nil`, and the recovered
`"panic in fetchPricesFn"` error when the runner body panics. -/
def runnerReturn : RunnerRun → Option String
  | .completes _ _ => none
  | .bodyPanics m => some ("panic in fetchPricesFn " ++ m)

/-! ## The tick and the published state (`tick`, `Start`, `oracle/oracle.go`) -/

/-- The value content of the published `map[string]sdk.Dec`. -/
abbrev PriceMapV := String → Option Int

/-- The oracle's published state: `prices` and `lastPriceSync` (the Go
zero time is `none`), both guarded by the single `mtx` RWMutex. -/
structure OracleState where
  prices : PriceMapV
  lastSync : Option Int

/-- Outcome of a tick's fan-out/fan-in phase: all runners returned nil
and the aggregator holds `snap`; or `errgroup.Wait` returned an error
(some runner body panicked); or the tick body panicked before
publication and was recovered by the tick's `defer`. -/
inductive WaitOutcome
  | ok (snap : Snapshot)
  | err (e : String)
  | panicked (m : String)

/-- `tick`: on a clean barrier, compute the median reduction and publish
prices and last-sync time; on a barrier error, log and return before any
publication; on a recovered tick-body panic, return with nothing
published. -/
def tick (st : OracleState) (w : WaitOutcome) (now : Int) : OracleState :=
  match w with
  | .ok snap => { prices := fun a => ComputeMedian snap a, lastSync := some now }
  | .err _ => st
  | .panicked _ => st

/-- One wake-up of the `select` in `Start`'s main loop: the ticker fires
(running one tick with outcome `w` at time `now`), the parent context is
cancelled (`ctx.Err() = e`), or the closer is closed by `Stop`. -/
inductive LoopEvent
  | tickFire (w : WaitOutcome) (now : Int)
  | ctxDone (e : String)
  | closerDone

def isTickFire : LoopEvent → Bool
  | .tickFire _ _ => true
  | _ => false

/-- The main loop of `Start`: process wake-ups in order; a ticker fire
runs `tick` and loops; context cancellation returns `ctx.Err()` (after
`Stop`); the closer returns `nil`. `none` means the loop is still
blocked (no terminating event occurred). -/
def startLoop (st : OracleState) : List LoopEvent → Option (Option String × OracleState)
  | [] => none
  | .tickFire w now :: rest => startLoop (tick st w now) rest
  | .ctxDone e :: _ => some (some e, st)
  | .closerDone :: _ => some (none, st)

/-- The state after a prefix of ticker fires. -/
def runTicks (st : OracleState) : List LoopEvent → OracleState
  | [] => st
  | .tickFire w now :: rest => runTicks (tick st w now) rest
  | _ :: rest => runTicks st rest

/-- **C2 (amended).** Every runner execution whose body completes — the
provider succeeded, errored, panicked inside the fetch goroutine, or
timed out / was abandoned — returns `nil` to the fan-in barrier. But a
panic of the runner body itself is recovered into a *non-nil* error, and
a tick whose barrier reports an error skips publication: its state is
unchanged. -/
theorem runner_returns_nil_except_body_panic :
    (∀ (r : FetchResult) (b : Bool), runnerReturn (.completes r b) = none)
    ∧ (∀ m, runnerReturn (.bodyPanics m) = some ("panic in fetchPricesFn " ++ m))
    ∧ (∀ (st : OracleState) (e : String) (now : Int), tick st (.err e) now = st) :=
  ⟨fun _ _ => rfl, fun _ => rfl, fun _ _ _ => rfl⟩

/-- **C2 (counterexample).** The claim says the runner returns a nil
error even when the runner body panics; the recovered body panic is in
fact returned as a non-nil error. -/
theorem runner_body_panic_returns_error :
    runnerReturn (.bodyPanics "boom") = some "panic in fetchPricesFn boom"
    ∧ runnerReturn (.bodyPanics "boom") ≠ none := by
  constructor
  · rfl
  · intro h
    exact Option.noConfusion h

/-- **C4.** A tick whose fan-in wait returns a non-nil error, or whose
body panics, publishes nothing: the price map and the last-sync
timestamp keep exactly their prior values, and the main loop goes on to
the next interval with the state unchanged. -/
theorem tick_failure_skips_publication (st : OracleState) (e m : String) (now : Int)
    (rest : List LoopEvent) :
    tick st (.err e) now = st
    ∧ tick st (.panicked m) now = st
    ∧ startLoop st (.tickFire (.err e) now :: rest) = startLoop st rest
    ∧ startLoop st (.tickFire (.panicked m) now :: rest) = startLoop st rest :=
  ⟨rfl, rfl, rfl, rfl⟩

/-- **C9.** `Start` blocks while only ticker fires occur, and its return
value distinguishes the two exit causes: the first cancellation event
makes it return the context's error, and the first `Stop` (closer) event
makes it return `nil`. -/
theorem start_blocks_until_cancel_or_stop :
    (∀ (st : OracleState) (evs : List LoopEvent),
      (∀ x ∈ evs, isTickFire x = true) → startLoop st evs = none)
    ∧ (∀ (st : OracleState) (pre : List LoopEvent) (e : String) (rest : List LoopEvent),
      (∀ x ∈ pre, isTickFire x = true) →
      startLoop st (pre ++ .ctxDone e :: rest) = some (some e, runTicks st pre))
    ∧ (∀ (st : OracleState) (pre rest : List LoopEvent),
      (∀ x ∈ pre, isTickFire x = true) →
      startLoop st (pre ++ .closerDone :: rest) = some (none, runTicks st pre)) := by
  refine ⟨?_, ?_, ?_⟩
  · intro st evs h
    induction evs generalizing st with
    | nil => rfl
    | cons x rest ih =>
      cases x with
      | tickFire w now =>
        exact ih (tick st w now) (fun y hy => h y (List.mem_cons_of_mem _ hy))
      | ctxDone e =>
        exact absurd (h _ (List.mem_cons_self _ _)) (by simp [isTickFire])
      | closerDone =>
        exact absurd (h _ (List.mem_cons_self _ _)) (by simp [isTickFire])
  · intro st pre e rest h
    induction pre generalizing st with
    | nil => rfl
    | cons x pre ih =>
      cases x with
      | tickFire w now =>
        exact ih (tick st w now) (fun y hy => h y (List.mem_cons_of_mem _ hy))
      | ctxDone e =>
        exact absurd (h _ (List.mem_cons_self _ _)) (by simp [isTickFire])
      | closerDone =>
        exact absurd (h _ (List.mem_cons_self _ _)) (by simp [isTickFire])
  · intro st pre rest h
    induction pre generalizing st with
    | nil => rfl
    | cons x pre ih =>
      cases x with
      | tickFire w now =>
        exact ih (tick st w now) (fun y hy => h y (List.mem_cons_of_mem _ hy))
      | ctxDone e =>
        exact absurd (h _ (List.mem_cons_self _ _)) (by simp [isTickFire])
      | closerDone =>
        exact absurd (h _ (List.mem_cons_self _ _)) (by simp [isTickFire])

/-- A concrete run: one tick, then cancellation; and one tick, then stop. -/
theorem start_blocks_until_cancel_or_stop_witness :
    (∀ x ∈ [LoopEvent.tickFire (.ok snapSingle) 5], isTickFire x = true)
    ∧ startLoop ⟨fun _ => none, none⟩
        [LoopEvent.tickFire (.ok snapSingle) 5, .ctxDone "context canceled"]
        = some (some "context canceled",
            runTicks ⟨fun _ => none, none⟩ [LoopEvent.tickFire (.ok snapSingle) 5])
    ∧ startLoop ⟨fun _ => none, none⟩
        [LoopEvent.tickFire (.ok snapSingle) 5, .closerDone]
        = some (none,
            runTicks ⟨fun _ => none, none⟩ [LoopEvent.tickFire (.ok snapSingle) 5]) :=
  ⟨fun x hx => by
      simp only [List.mem_singleton] at hx
      subst hx
      rfl,
   start_blocks_until_cancel_or_stop.2.1 ⟨fun _ => none, none⟩
     [LoopEvent.tickFire (.ok snapSingle) 5] "context canceled" []
     (fun x hx => by
       simp only [List.mem_singleton] at hx
       subst hx
       rfl),
   start_blocks_until_cancel_or_stop.2.2 ⟨fun _ => none, none⟩
     [LoopEvent.tickFire (.ok snapSingle) 5] []
     (fun x hx => by
       simp only [List.mem_singleton] at hx
       subst hx
       rfl)⟩

/-! ## Publication and readers (`SetPrices`, `SetLastSyncTime`, `GetPrices`)

`SetPrices`, `SetLastSyncTime` and the readers all use the single `mtx`
RWMutex, but each takes and releases the lock on its own. The schedule
events below are exactly the critical sections: one per `Lock`/`Unlock`
pair of a setter and one per `RLock`/`RUnlock` pair of a reader. -/

/-- One critical section on `mtx`: a `SetPrices`, a `SetLastSyncTime`,
or a reader atomically reading both fields. -/
inductive PubEvent
  | setP (m : PriceMapV)
  | setT (t : Int)
  | read

/-- Run a schedule of critical sections; collect what each reader
observes (the price map and last-sync time it sees under its RLock). -/
def pubRun (st : OracleState) :
    List PubEvent → OracleState × List (PriceMapV × Option Int)
  | [] => (st, [])
  | .setP m :: rest => pubRun { st with prices := m } rest
  | .setT t :: rest => pubRun { st with lastSync := some t } rest
  | .read :: rest =>
    let r := pubRun st rest
    (r.1, (st.prices, st.lastSync) :: r.2)

/-- **C5 (amended).** `SetPrices` and `SetLastSyncTime` both use the one
`mtx` RWMutex, but each in its own critical section, so publication is
not atomic as a pair: a reader scheduled anywhere around the two setter
sections observes one of exactly three states — pre-publication,
mid-publication (the *new* price map with the *old* timestamp), or
post-publication. It can never see the old map with the new timestamp,
but "both or neither" fails: the mid-publication state is observable. -/
theorem publication_reader_sees_ordered_states (st : OracleState) (m : PriceMapV) (t : Int)
    (sched : List PubEvent)
    (h : sched = [.read, .setP m, .setT t] ∨ sched = [.setP m, .read, .setT t]
       ∨ sched = [.setP m, .setT t, .read]) :
    ∀ obs ∈ (pubRun st sched).2,
      obs = (st.prices, st.lastSync) ∨ obs = (m, st.lastSync) ∨ obs = (m, some t) := by
  rcases h with h | h | h <;> subst h <;> intro obs hobs <;>
    simp only [pubRun, List.mem_singleton] at hobs <;> simp [hobs]

/-- The published state before the tick publishes: empty map, last sync
at time 10. -/
def pubInitState : OracleState := ⟨fun _ => none, some 10⟩

/-- The price map a successful tick publishes. -/
def newPriceMap : PriceMapV := fun a => if a = "BTC/USD" then some 30000 else none

theorem publication_reader_sees_ordered_states_witness :
    ([PubEvent.setP newPriceMap, .read, .setT 20]
        = [PubEvent.read, .setP newPriceMap, .setT 20]
      ∨ [PubEvent.setP newPriceMap, .read, .setT 20]
        = [PubEvent.setP newPriceMap, .read, .setT 20]
      ∨ [PubEvent.setP newPriceMap, .read, .setT 20]
        = [PubEvent.setP newPriceMap, .setT 20, .read])
    ∧ ∀ obs ∈ (pubRun pubInitState [PubEvent.setP newPriceMap, .read, .setT 20]).2,
        obs = (pubInitState.prices, pubInitState.lastSync)
        ∨ obs = (newPriceMap, pubInitState.lastSync)
        ∨ obs = (newPriceMap, some 20) :=
  ⟨Or.inr (Or.inl rfl),
   publication_reader_sees_ordered_states pubInitState newPriceMap 20
     [PubEvent.setP newPriceMap, .read, .setT 20] (Or.inr (Or.inl rfl))⟩

/-- **C5 (counterexample).** With the reader's critical section falling
between the tick's `SetPrices` and `SetLastSyncTime` sections, the
reader observes the *new* price map together with the *old* timestamp —
the claim says a reader sees both updates or neither. -/
theorem reader_observes_new_prices_old_timestamp :
    (pubRun pubInitState [PubEvent.setP newPriceMap, .read, .setT 20]).2
      = [(newPriceMap, some 10)]
    ∧ newPriceMap "BTC/USD" ≠ pubInitState.prices "BTC/USD"
    ∧ pubInitState.lastSync ≠ some 20 := by
  refine ⟨rfl, ?_, ?_⟩
  · intro hc
    simp [newPriceMap, pubInitState] at hc
  · intro hc
    simp [pubInitState] at hc

/-! ## The tick-scoped aggregator and abandoned fetches -/

/-- Modelled from the spec: `types.PriceAggregator` (`oracle/types`) is
code of this repository that is not under `src/`. Spec §4.1:
`SetPrices(provider, quotes)` atomically stores `quotes` under the
provider's slot, replacing any prior entry for that provider; the
accumulated per-provider map is returned to the reducer. No "fan-in
closed" flag guards the write, and spec §9 records that the source's
fetch goroutines are unbounded and may outlive the tick's select.
Provider slots are an association list keyed by provider name. -/
def aggSet (agg : List (String × ProviderPrices)) (p : String) (ps : ProviderPrices) :
    List (String × ProviderPrices) :=
  if agg.any (fun e => e.1 = p) then
    agg.map (fun e => if e.1 = p then (p, ps) else e)
  else agg ++ [(p, ps)]

/-- Events racing on the tick's aggregator once a runner's select has
taken the timeout branch: the abandoned fetch goroutine's late
`SetPrices`, and the main goroutine's post-barrier
`GetProviderPrices`. Nothing in `tick` or `fetchPricesFn` orders the
late write after the snapshot. -/
inductive AggEvent
  | lateSet (provider : String) (ps : ProviderPrices)
  | takeSnapshot

/-- Run a schedule of aggregator critical sections; collect the
per-provider map each `takeSnapshot` observes. -/
def aggRun (agg : List (String × ProviderPrices)) :
    List AggEvent → List (String × ProviderPrices) × List (List (String × ProviderPrices))
  | [] => (agg, [])
  | .lateSet p ps :: rest => aggRun (aggSet agg p ps) rest
  | .takeSnapshot :: rest =>
    let r := aggRun agg rest
    (r.1, agg :: r.2)

/-- The aggregator after P1's on-time write: (BTC,USD) at 30000. -/
def aggAfterP1 : List (String × ProviderPrices) := [("P1", [("BTC/USD", ⟨30000, 1⟩)])]

/-- The prices the timed-out provider P2 delivers late: (BTC,USD) at
40000. -/
def lateP2Prices : ProviderPrices := [("BTC/USD", ⟨40000, 2⟩)]

/-- The snapshot the tick consumes when P2's late write lands before
`GetProviderPrices`. -/
def snapWithLate : List (String × ProviderPrices) :=
  [("P1", [("BTC/USD", ⟨30000, 1⟩)]), ("P2", lateP2Prices)]

/-- **C3 (failing schedule).** After P2's runner timed out, the
interleaving in which P2's abandoned goroutine calls `SetPrices` before
the tick's `GetProviderPrices` delivers a snapshot that contains P2's
late prices, and the tick's median changes from 30000 to 40000 — the
late write is consumed by this tick's reduction, which the claim
forbids. -/
theorem late_write_included_in_snapshot :
    (aggRun aggAfterP1 [AggEvent.lateSet "P2" lateP2Prices, AggEvent.takeSnapshot]).2
      = [snapWithLate]
    ∧ ComputeMedian (snapWithLate.map Prod.snd) "BTC/USD" = some 40000
    ∧ ComputeMedian (aggAfterP1.map Prod.snd) "BTC/USD" = some 30000 := by
  refine ⟨by decide, ?_, ?_⟩
  · exact computeMedian_eval _ _ [30000, 40000] 40000
      (by decide) (by decide) (by decide) (by decide)
  · exact computeMedian_eval _ _ [30000] 30000
      (by decide) (by decide) (by decide) (by decide)

/-! ## `GetPrices` and defensive copies

To talk about map aliasing and mutation, allocated `map[string]sdk.Dec`
values live in an explicit heap of references. -/

/-- A heap of allocated Go maps: references below `next` are live. -/
structure Heap where
  next : Nat
  store : Nat → PriceMapV

/-- `make(map[string]sdk.Dec, n)` plus population: allocate a fresh
reference holding map contents `m`. -/
def allocH (h : Heap) (m : PriceMapV) : Nat × Heap :=
  (h.next, ⟨h.next + 1, fun r => if r = h.next then m else h.store r⟩)

/-- A consumer mutating one key of the map behind reference `r`. -/
def writeKeyH (h : Heap) (r : Nat) (k : String) (v : Option Int) : Heap :=
  ⟨h.next,
   fun q => if q = r then (fun k' => if k' = k then v else h.store r k') else h.store q⟩

/-- The oracle's handle on its internal published map. -/
structure OracleRef where
  pricesRef : Nat

/-- `GetPrices`: under `mtx.RLock`, allocate a fresh map and `maps.Copy`
the published entries into it; the fresh reference is returned. -/
def GetPricesOp (o : OracleRef) (h : Heap) : Nat × Heap :=
  allocH h (h.store o.pricesRef)

/-- **C8.** `GetPrices` returns a fresh defensive copy: the returned map
holds exactly the published entries; mutating it leaves the oracle's
internal map untouched; and a subsequent `GetPrices` still returns the
original published entries. -/
theorem getPrices_defensive_copy (o : OracleRef) (h : Heap) (k : String) (v : Option Int)
    (hlive : o.pricesRef < h.next) :
    ((GetPricesOp o h).2.store (GetPricesOp o h).1 = h.store o.pricesRef)
    ∧ ((writeKeyH (GetPricesOp o h).2 (GetPricesOp o h).1 k v).store o.pricesRef
        = h.store o.pricesRef)
    ∧ ((GetPricesOp o (writeKeyH (GetPricesOp o h).2 (GetPricesOp o h).1 k v)).2.store
          (GetPricesOp o (writeKeyH (GetPricesOp o h).2 (GetPricesOp o h).1 k v)).1
        = h.store o.pricesRef) := by
  have hne : o.pricesRef ≠ h.next := Nat.ne_of_lt hlive
  refine ⟨?_, ?_, ?_⟩ <;> simp [GetPricesOp, allocH, writeKeyH, hne]

/-- A live heap with the oracle's map at reference 0. -/
def heap0 : Heap := ⟨1, fun _ => fun _ => none⟩

def oref0 : OracleRef := ⟨0⟩

theorem getPrices_defensive_copy_witness :
    oref0.pricesRef < heap0.next
    ∧ (((GetPricesOp oref0 heap0).2.store (GetPricesOp oref0 heap0).1
          = heap0.store oref0.pricesRef)
      ∧ ((writeKeyH (GetPricesOp oref0 heap0).2 (GetPricesOp oref0 heap0).1
            "BTC/USD" (some 1)).store oref0.pricesRef = heap0.store oref0.pricesRef)
      ∧ ((GetPricesOp oref0 (writeKeyH (GetPricesOp oref0 heap0).2
            (GetPricesOp oref0 heap0).1 "BTC/USD" (some 1))).2.store
            (GetPricesOp oref0 (writeKeyH (GetPricesOp oref0 heap0).2
              (GetPricesOp oref0 heap0).1 "BTC/USD" (some 1))).1
          = heap0.store oref0.pricesRef)) :=
  ⟨by decide, getPrices_defensive_copy oref0 heap0 "BTC/USD" (some 1) (by decide)⟩

end Connect
